import Mathlib

/-!
Verification development for the seneca pattern-matched action dispatcher
(src/seneca.js).  JavaScript objects are embedded as association lists of
string-keyed values; each operation relevant to the claims is translated
directly from the source.
-/

namespace Seneca

/-- Embedding of defined JavaScript values as they occur in messages and
options; an absent or undefined property is `Option.none` at use sites.
Numbers are modelled as integers (no claim involves float behaviour). -/
inductive JVal where
  | vnull
  | vbool (b : Bool)
  | vnum (n : Int)
  | vstr (s : String)
  | vobj (fields : List (String × JVal))
  | varr (elems : List JVal)

/-- A JavaScript object: ordered association list of own enumerable
properties.  Key order is insertion order, as in V8. -/
def Obj := List (String × JVal)

/-- JavaScript truthiness for the embedded values. -/
def jsTruthy : JVal → Bool
  | .vnull => false
  | .vbool b => b
  | .vnum n => n != 0
  | .vstr s => s != ""
  | .vobj _ => true
  | .varr _ => true

/-- Truthiness of an optional property (`none` = property absent, i.e.
`undefined`). -/
def jsTruthyOpt : Option JVal → Bool
  | none => false
  | some v => jsTruthy v

/-- `lodash _.isPlainObject` on the embedded values. -/
def isPlainObject : JVal → Bool
  | .vobj _ => true
  | _ => false

/-- `lodash _.isArray` on the embedded values. -/
def isArray : JVal → Bool
  | .varr _ => true
  | _ => false

/-- `lodash _.isObject`: objects and arrays count (functions are out of
scope for the values we model). -/
def lodashIsObject : JVal → Bool
  | .vobj _ => true
  | .varr _ => true
  | _ => false

/-- Property read `o[k]`: first binding wins, `none` when absent. -/
def getKey : Obj → String → Option JVal
  | [], _ => none
  | (k', v) :: rest, k => if k' = k then some v else getKey rest k

/-- Property write `o[k] = v`: overwrite in place, append when absent. -/
def setKey : Obj → String → JVal → Obj
  | [], k, v => [(k, v)]
  | (k', v') :: rest, k, v =>
    if k' = k then (k, v) :: rest else (k', v') :: setKey rest k v

/-- Property delete `delete o[k]`. -/
def delKey : Obj → String → Obj
  | [], _ => []
  | (k', v') :: rest, k =>
    if k' = k then delKey rest k else (k', v') :: delKey rest k

/-- `lodash _.extend(dst, src)`: copy every own property of `src` into
`dst`, overwriting.  Iterates `src` in property order. -/
def extend (dst : Obj) : Obj → Obj
  | [] => dst
  | (k, v) :: rest => extend (setKey dst k v) rest

/-- The keys of an object, in property order (`lodash _.keys`). -/
def objKeys (o : Obj) : List String := o.map Prod.fst

/-! ## Options (src/seneca.js, internals.defaults) -/

/-- The `strict` option block (src/seneca.js lines 96-113). -/
structure StrictOptions where
  result : Bool
  fixedargs : Bool
  add : Bool
  find : Bool
  maxloop : Nat

/-- Built-in defaults of the `strict` block: result true, fixedargs true,
add false, find true, maxloop 11 (src/seneca.js lines 97-113). -/
def defaults_strict : StrictOptions := ⟨true, true, false, true, 11⟩

/-! ## api_add (src/seneca.js lines 656-777) -/

/-- Modelled from the spec: `Common.clean` lives in lib/common.js which is
not under src/.  Per the spec, reserved suffixed attributes (names ending
in the dollar suffix) carry control metadata and are stripped before
match. -/
def clean (o : Obj) : Obj :=
  o.filter (fun kv => !(kv.1.data.getLast? = some '$' : Bool))

/-- Truthiness of the array returned by lodash `_.keys(pattern)`.  A
JavaScript array is an object and is always truthy, even when it is
empty, so `!_.keys(pattern)` (line 696) is always false. -/
def keysArrayTruthy (o : Obj) : Bool :=
  jsTruthy (JVal.varr ((objKeys o).map JVal.vstr))

/-- Outcome of the pattern-cleaning half of `api_add` (lines 694-706):
either it throws, or it proceeds with the final pattern (object-valued
keys extracted into rules) and the list of extracted rule keys. -/
inductive AddResult where
  | threw (code : String)
  | registered (pattern : Obj) (ruleKeys : List String)

/-- Does the result represent a thrown error? -/
def AddResult.isThrew : AddResult → Bool
  | .threw _ => true
  | .registered _ _ => false

/-- Pattern cleaning, emptiness check and rules extraction of `api_add`
(src/seneca.js lines 694-706): clean the raw pattern, throw
`add_empty_pattern` when `!_.keys(pattern)`, else move object-valued keys
into the validation rules. -/
def api_add_clean_check (raw : Obj) : AddResult :=
  let pattern := clean raw
  if !(keysArrayTruthy pattern) then .threw "add_empty_pattern"
  else
    .registered (pattern.filter (fun kv => !(lodashIsObject kv.2)))
      (objKeys (pattern.filter (fun kv => lodashIsObject kv.2)))

/-- Action metadata as far as the override chain is concerned: id,
canonical pattern string, reference to the overridden metadata, the
flattened prior id path, and whether the metadata exposes a `handle`
delegation function. -/
inductive ActMeta where
  | mk (id : String) (pattern : String) (priormeta : Option ActMeta)
      (priorpath : String) (hasHandle : Bool)

/-- Generated identifier of the action metadata. -/
def ActMeta.id : ActMeta → String
  | .mk i _ _ _ _ => i

/-- Canonical pattern string of the action metadata. -/
def ActMeta.pattern : ActMeta → String
  | .mk _ p _ _ _ => p

/-- The overridden prior metadata, when recorded. -/
def ActMeta.priormeta : ActMeta → Option ActMeta
  | .mk _ _ pm _ _ => pm

/-- The flattened `id;id;id` chain of overridden ancestors. -/
def ActMeta.priorpath : ActMeta → String
  | .mk _ _ _ pp _ => pp

/-- Whether the metadata exposes a `handle(pattern, action)` function. -/
def ActMeta.hasHandle : ActMeta → Bool
  | .mk _ _ _ _ h => h

/-- Prior filtering in `api_add` (src/seneca.js lines 726-736): drop the
found prior when it is the empty catch-all and `internal.catchall` is
off, or when `strict.add` is on and its canonical pattern differs from
the new one. -/
def select_prior (internal_catchall strict_add : Bool)
    (found : Option ActMeta) (new_pattern : String) : Option ActMeta :=
  match found with
  | none => none
  | some p =>
    if internal_catchall = false ∧ p.pattern = "" then none
    else if strict_add = true ∧ p.pattern ≠ new_pattern then none
    else some p

/-- What `api_add` records about the prior on the new metadata. -/
structure PriorRecord where
  priormeta : Option ActMeta
  priorpath : String
  addroute : Bool

/-- Prior recording in `api_add` (src/seneca.js lines 738-750): a prior
with a `handle` function is delegated to (no new route, `priormeta` not
recorded); otherwise `priormeta` is recorded; either way `priorpath`
becomes `prior.id + ";" + prior.priorpath`; with no prior, `priorpath`
is the empty string. -/
def record_prior : Option ActMeta → PriorRecord
  | none => ⟨none, "", true⟩
  | some p =>
    if p.hasHandle then ⟨none, p.id ++ ";" ++ p.priorpath, false⟩
    else ⟨some p, p.id ++ ";" ++ p.priorpath, true⟩

/-- The full override policy of `api_add` (src/seneca.js lines 724-750),
parameterised by the router's find result for the new pattern. -/
def apply_prior_policy (internal_catchall strict_add : Bool)
    (found : Option ActMeta) (new_pattern : String) : PriorRecord :=
  record_prior (select_prior internal_catchall strict_add found new_pattern)

/-! ## api_act message normalization (src/seneca.js lines 834-851) -/

/-- Message normalization in `api_act` (src/seneca.js line 839):
`args = _.extend(args, self.fixedargs)`.  The instance `fixedargs` are
copied over the caller-supplied message unconditionally; the options
(`so`, including `strict.fixedargs`) are in scope in the source but are
not consulted by this merge. -/
def api_act_normalize (_so_strict : StrictOptions) (args fixedargs : Obj) : Obj :=
  extend args fixedargs

/-- Fixedargs composition in `api_delegate` (src/seneca.js lines
1598-1600): with `strict.fixedargs` on, `_.extend({}, fixedargs,
self.fixedargs)` (the existing instance values win); with it off,
`_.extend({}, self.fixedargs, fixedargs)` (the newly supplied values
win). -/
def api_delegate_fixedargs (strict_fixedargs : Bool)
    (self_fixedargs new_fixedargs : Obj) : Obj :=
  if strict_fixedargs then extend (extend [] new_fixedargs) self_fixedargs
  else extend (extend [] self_fixedargs) new_fixedargs

/-! ## Action id and cache key (src/seneca.js lines 985-1009, 1418-1446) -/

/-- JavaScript `a || b` on optional strings, where the empty string is
falsy and `none` stands for `undefined`. -/
def jsOrStr : Option String → Option String → Option String
  | some s, b => if s = "" then b else some s
  | none, b => b

/-- JavaScript `a || d` with a string default known to be truthy. -/
def jsOrStrD (a : Option String) (d : String) : String :=
  match a with
  | some s => if s = "" then d else s
  | none => d

/-- Identifier generator outputs consumed by one `do_act` call: the
source calls `instance.idgen()` up to three times (lines 992, 997, 998);
each call yields a fresh non-empty, slash-free identifier. -/
structure IdGens where
  genBase : String
  genTx : String
  genId0 : String

/-- Character-level splitting used to embed the JavaScript
`String.prototype.split('/')`: groups between slashes, so that
`"X/T"` gives `["X", "T"]`, `"X"` gives `["X"]` and `""` gives
`[""]`. -/
def splitSlashChars : List Char → List (List Char)
  | [] => [[]]
  | c :: rest =>
    if c = '/' then [] :: splitSlashChars rest
    else
      match splitSlashChars rest with
      | [] => [[c]]
      | g :: gs => (c :: g) :: gs

/-- JavaScript `s.split('/')` on the embedded strings. -/
def splitSlash (s : String) : List String :=
  (splitSlashChars s.data).map (fun cs => String.mk cs)

/-- Action-id computation in `do_act` (src/seneca.js lines 992-998):
`id_tx = (args.id$ || args.actid$ || idgen()).split('/')`;
`tx = id_tx[1] || origargs.tx$ || instance.fixedargs.tx$ || idgen()`;
`actid = (id_tx[0] || idgen()) + '/' + tx`. -/
def compute_actid (idD actidD txD fixedTxD : Option String)
    (gens : IdGens) : String :=
  let base := jsOrStrD (jsOrStr idD actidD) gens.genBase
  let id_tx := splitSlash base
  let tx := jsOrStrD (id_tx.get? 1) (jsOrStrD txD (jsOrStrD fixedTxD gens.genTx))
  jsOrStrD (id_tx.get? 0) gens.genId0 ++ "/" ++ tx

/-- Cache lookup key used by `apply_actcache` (src/seneca.js line 1422):
`var actid = callargs.id$ || callargs.actid$` — the caller-supplied value
verbatim, with no tx composition. -/
def cache_lookup_key (idD actidD : Option String) : Option String :=
  jsOrStr idD actidD

/-! ## A dispatch step of do_act, cache aspects
(src/seneca.js lines 985-1009, 1134-1138, 1418-1446) -/

/-- A result tuple `(err, result)` as delivered to a continuation and as
stored in the action cache. -/
structure ResultTuple where
  err : Option String
  result : JVal

/-- Mutable dispatch state touched by the cache logic: the action cache
(`private$.actcache`, keyed by action-id) and the `act.cache` stats
counter. -/
structure ActState where
  cache : List (String × ResultTuple)
  cacheHits : Nat

/-- Assoc lookup on the cache (lru-cache `get` restricted to presence). -/
def cacheGet : List (String × ResultTuple) → String → Option ResultTuple
  | [], _ => none
  | (k', v) :: rest, k => if k' = k then some v else cacheGet rest k

/-- Assoc insert on the cache (lru-cache `set`; eviction is out of scope
for the claims, which use at most two entries). -/
def cacheSet (c : List (String × ResultTuple)) (k : String) (v : ResultTuple) :
    List (String × ResultTuple) :=
  (k, v) :: c.filter (fun kv => kv.1 ≠ k)

/-- Observable outcome of one `do_act` dispatch, as far as the cache
claims are concerned: either the cached tuple is replayed to the
continuation on the next tick and the handler is not invoked
(`apply_actcache` returned truthily, lines 1007-1009), or the handler is
invoked and produces a tuple that `act_done` stores under the composed
action-id (lines 1134-1138). -/
inductive DispatchOutcome where
  | replayedNextTick (tuple : ResultTuple)
  | executed (tuple : ResultTuple)

/-- Was the handler invoked for this outcome? -/
def DispatchOutcome.handlerInvoked : DispatchOutcome → Bool
  | .replayedNextTick _ => false
  | .executed _ => true

/-- The tuple delivered to the continuation. -/
def DispatchOutcome.delivered : DispatchOutcome → ResultTuple
  | .replayedNextTick t => t
  | .executed t => t

/-- One `do_act` dispatch, cache aspects (src/seneca.js lines 985-1009
and the `act_done` store at lines 1134-1138): when `actcache.active` and
the verbatim `id$`/`actid$` key hits the cache, the cached tuple is
replayed asynchronously, `act.cache` is incremented and dispatch
terminates; otherwise the handler runs and its tuple — error or not — is
stored under the composed `<id>/<tx>` action-id. -/
def act_once (active : Bool) (st : ActState)
    (idD actidD txD fixedTxD : Option String) (gens : IdGens)
    (handlerTuple : ResultTuple) : ActState × DispatchOutcome :=
  match (if active then (cache_lookup_key idD actidD).bind (cacheGet st.cache)
         else none) with
  | some tuple => (⟨st.cache, st.cacheHits + 1⟩, .replayedNextTick tuple)
  | none =>
    let actid := compute_actid idD actidD txD fixedTxD gens
    (⟨cacheSet st.cache actid handlerTuple, st.cacheHits⟩, .executed handlerTuple)

/-! ## Missing-action handling (src/seneca.js lines 1001, 1272-1317) -/

/-- The `default$` normalization at src/seneca.js line 1001:
`args.default$ = args.default$ || (!so.strict.find ? {} : args.default$)`.
A truthy `default$` is kept; otherwise, with `strict.find` off it becomes
the empty object, and with `strict.find` on the original (possibly
absent or falsy) value is kept. -/
def norm_default (strict_find : Bool) (d : Option JVal) : Option JVal :=
  if jsTruthyOpt d then d
  else if strict_find then d else some (JVal.vobj [])

/-- What the dispatcher does when no pattern matches. -/
inductive NoMatchOutcome where
  | deliver (v : JVal)
  | errNotFound
  | errDefaultBad
  | died (code : String)

/-- The action-pattern-not-found branch of `executable_action`
(src/seneca.js lines 1272-1317): a plain-object or array `default$` is
delivered as the result; otherwise an `act_not_found` error is built, or
`act_default_bad` when `default$` is present (not undefined); with
`fatal$` the instance dies, else the error goes to the continuation. -/
def no_match_branch (d : Option JVal) (fatal : Bool) : NoMatchOutcome :=
  match d with
  | some v =>
    if isPlainObject v || isArray v then .deliver v
    else if fatal then .died "act_default_bad"
    else .errDefaultBad
  | none =>
    if fatal then .died "act_not_found"
    else .errNotFound

/-- The composition actually run on a dispatch with no matching pattern:
`default$` normalization (line 1001) followed by the not-found branch of
`executable_action` (lines 1272-1317). -/
def dispatch_no_match (strict_find fatal : Bool) (d : Option JVal) :
    NoMatchOutcome :=
  no_match_branch (norm_default strict_find d) fatal

/-! ## Loop detection (src/seneca.js lines 1255-1270) -/

/-- An entry of the `history$` array; the loop check compares its
`action` field against the resolved metadata id. -/
structure HistEntry where
  action : String

/-- The loop check of `executable_action` (src/seneca.js lines
1255-1270), run when metadata was resolved: with a non-empty `history$`
array, count the entries whose `action` equals the metadata id and fail
with `act_loop` when `strict.maxloop < count`; otherwise proceed (the
dispatch goes on to validation and handler invocation).  `none` stands
for an absent or non-array `history$`. -/
def loop_check (maxloop : Nat) (history : Option (List HistEntry))
    (action_id : String) : Option String :=
  match history with
  | some h =>
    if 0 < h.length then
      if maxloop < (h.countP (fun e => e.action = action_id)) then
        some "act_loop"
      else none
    else none
  | none => none

/-! ## Prior calls (src/seneca.js lines 1461-1525) -/

/-- The per-dispatch call context threaded through `do_act`. -/
structure PriorCtxt where
  chain : List String
  entry : Bool
  depth : Nat

/-- The context built for a prior call (src/seneca.js lines 1487-1491):
clone the caller's context, push the calling action's id onto the chain,
clear `entry`, increment `depth`. -/
def make_sub_prior_ctxt (ctxt : PriorCtxt) (action_id : String) : PriorCtxt :=
  ⟨ctxt.chain ++ [action_id], false, ctxt.depth + 1⟩

/-- Sequential property deletes. -/
def delKeys (o : Obj) : List String → Obj
  | [] => o
  | k :: ks => delKeys (delKey o k) ks

/-- The reserved attributes deleted from a prior call's message
(src/seneca.js lines 1493-1497). -/
def priorStrippedKeys : List String :=
  ["id$", "gate$", "actid$", "meta$", "transport$"]

/-- The message sent by a prior call (src/seneca.js lines 1485-1503):
clone the arguments, delete the reserved attributes `id$`, `gate$`,
`actid$`, `meta$`, `transport$`, copy a truthy `default$` from the
calling message, and fix `tx$` to the calling transaction. -/
def prepare_prior_args (args : Obj) (tx : String)
    (callargs_default : Option JVal) : Obj :=
  let a := delKeys args priorStrippedKeys
  let a := match callargs_default with
    | some d => if jsTruthy d then setKey a "default$" d else a
    | none => a
  setKey a "tx$" (JVal.vstr tx)

/-- Metadata resolution at the top of `execute_action` (src/seneca.js
line 1012): `actmeta = actmeta || act_instance.find(args, ...)` — a
metadata already bound to the dispatch (as a prior call binds
`actmeta.priormeta`, line 1505) short-circuits pattern resolution. -/
def resolve_actmeta (bound : Option ActMeta) (find_result : Option ActMeta) :
    Option ActMeta :=
  match bound with
  | some m => some m
  | none => find_result

/-! ## Subscription fan-out (src/seneca.js lines 583-627) -/

/-- Strict JavaScript comparison `x !== true` on an optional property,
negated: holds exactly for the boolean `true`. -/
def is_strict_true : Option JVal → Bool
  | some (.vbool true) => true
  | _ => false

/-- The invocation of one subscriber function: it either returns or
throws, carrying the thrown message. -/
abbrev SubOutcome := Except String Unit

/-- The error a subscriber invocation threw, if any. -/
def subError : SubOutcome → Option String
  | .error e => some e
  | .ok _ => none

/-- `handle_sub` (src/seneca.js lines 584-611): if the dispatch's
`meta$.entry` is not strictly `true`, return without firing; else, when
the subrouter finds subscriber functions, invoke each one inside a
try/catch that logs a `sub_function_catch` error and continues.  The
model returns whether the subscriber list was fired and the list of
logged subscriber errors; it is a total function — subscriber exceptions
are never propagated. -/
def handle_sub (meta_entry : Option JVal)
    (subfuncs : Option (List SubOutcome)) : Bool × List String :=
  if is_strict_true meta_entry then
    match subfuncs with
    | some fs => (true, fs.foldl (fun logs r =>
        match subError r with
        | some e => logs ++ [e]
        | none => logs) [])
    | none => (false, [])
  else (false, [])

/-! ## Error flow (src/seneca.js lines 1140-1161, 1322-1375) -/

/-- Observable effects of the error path of `act_done`/`act_error`. -/
structure ErrFlow where
  died : Bool
  errhandlerCalled : Bool
  continuationCalled : Bool

/-- `act_error` (src/seneca.js lines 1322-1375), reduced to its control
decisions: `call_cb` starts true; when an `errhandler` is installed and
the message does not carry `fatal$`, the handler is invoked and
`call_cb = !errhandler(err)`.  The first component reports whether the
errhandler was invoked; the second is `call_cb`.  `errhandler` is
`none` when not installed, `some r` when installed and returning
truthiness `r`. -/
def act_error_flow (fatal : Bool) (errhandler : Option Bool) : Bool × Bool :=
  match errhandler with
  | some r => if fatal = false then (true, !r) else (false, true)
  | none => (false, true)

/-- The error branch of `act_done` (src/seneca.js lines 1140-1161): run
`act_error`, then — when the message carries `fatal$` — die without
invoking the user continuation; otherwise invoke the continuation
exactly when `act_error` left `call_cb` true. -/
def act_done_error (fatal : Bool) (errhandler : Option Bool) : ErrFlow :=
  let flow := act_error_flow fatal errhandler
  if fatal then ⟨true, flow.1, false⟩
  else ⟨false, flow.1, flow.2⟩

/-- First dispatch of the bare-id cache scenario: the message carries
`id$ = "X"` (no `/tx` part), the cache starts empty, the handler yields
`(null, 1)`, the id generators yield `g1`, `t1`, `g3`. -/
def bareIdRun1 : ActState × DispatchOutcome :=
  act_once true ⟨[], 0⟩ (some "X") none none none ⟨"g1", "t1", "g3"⟩
    ⟨none, JVal.vnum 1⟩

/-- Second dispatch of the bare-id cache scenario: same `id$ = "X"`,
state left by the first dispatch, handler now yields `(null, 2)`. -/
def bareIdRun2 : ActState × DispatchOutcome :=
  act_once true bareIdRun1.1 (some "X") none none none ⟨"g2", "t2", "g4"⟩
    ⟨none, JVal.vnum 2⟩

/-- A registered prior that exposes a `handle` delegation function. -/
def handlePrior : ActMeta := .mk "pH" "a:1" none "" true

/-! ## Supporting lemmas -/

theorem getKey_setKey_self (o : Obj) (k : String) (v : JVal) :
    getKey (setKey o k v) k = some v := by
  induction o with
  | nil => simp [setKey, getKey]
  | cons kv rest ih =>
    by_cases h : kv.1 = k
    · simp [setKey, getKey, h]
    · simp [setKey, getKey, h, ih]

theorem getKey_setKey_other (o : Obj) (k k' : String) (v : JVal)
    (h : k' ≠ k) : getKey (setKey o k' v) k = getKey o k := by
  induction o with
  | nil => simp [setKey, getKey, h]
  | cons kv rest ih =>
    by_cases h2 : kv.1 = k'
    · simp [setKey, getKey, h2, h]
    · simp [setKey, getKey, h2, ih]

theorem getKey_delKey_self (o : Obj) (k : String) :
    getKey (delKey o k) k = none := by
  induction o with
  | nil => simp [delKey, getKey]
  | cons kv rest ih =>
    by_cases h : kv.1 = k
    · simp [delKey, h, ih]
    · simp [delKey, getKey, h, ih]

theorem getKey_delKey_other (o : Obj) (k k' : String) (h : k' ≠ k) :
    getKey (delKey o k') k = getKey o k := by
  induction o with
  | nil => simp [delKey]
  | cons kv rest ih =>
    by_cases h2 : kv.1 = k'
    · simp [delKey, getKey, h2, h, ih]
    · simp [delKey, getKey, h2, ih]

theorem getKey_extend_of_not_mem (src : Obj) (dst : Obj) (k : String)
    (h : k ∉ objKeys src) : getKey (extend dst src) k = getKey dst k := by
  induction src generalizing dst with
  | nil => rfl
  | cons kv rest ih =>
    simp only [objKeys, List.map_cons, List.mem_cons] at h
    push_neg at h
    rw [extend, ih _ h.2, getKey_setKey_other _ _ _ _ (fun e => h.1 e.symm)]

theorem getKey_extend_of_mem (src : Obj) (dst : Obj) (k : String) (v : JVal)
    (hnd : (objKeys src).Nodup) (h : getKey src k = some v) :
    getKey (extend dst src) k = some v := by
  induction src generalizing dst with
  | nil => simp [getKey] at h
  | cons kv rest ih =>
    simp only [objKeys, List.map_cons, List.nodup_cons] at hnd
    by_cases hk : kv.1 = k
    · subst hk
      rw [getKey, if_pos rfl] at h
      cases h
      rw [extend, getKey_extend_of_not_mem _ _ _ hnd.1, getKey_setKey_self]
    · rw [getKey, if_neg hk] at h
      rw [extend]
      exact ih _ hnd.2 h

theorem getKey_delKeys (ks : List String) (o : Obj) (k : String) :
    getKey (delKeys o ks) k = if k ∈ ks then none else getKey o k := by
  induction ks generalizing o with
  | nil => simp [delKeys]
  | cons k0 ks ih =>
    by_cases h : k = k0
    · subst h
      simp [delKeys, ih, getKey_delKey_self]
    · simp only [delKeys, ih, List.mem_cons]
      rw [getKey_delKey_other _ _ _ (fun e => h e.symm)]
      simp [h]

theorem splitSlashChars_no_slash (l : List Char) (h : '/' ∉ l) :
    splitSlashChars l = [l] := by
  induction l with
  | nil => rfl
  | cons c rest ih =>
    simp only [List.mem_cons] at h
    push_neg at h
    simp only [splitSlashChars, if_neg (Ne.symm h.1), ih h.2]

theorem splitSlashChars_append (l r : List Char) (h : '/' ∉ l) :
    splitSlashChars (l ++ '/' :: r) = l :: splitSlashChars r := by
  induction l with
  | nil => simp [splitSlashChars]
  | cons c rest ih =>
    simp only [List.mem_cons] at h
    push_neg at h
    simp only [List.cons_append, splitSlashChars, if_neg (Ne.symm h.1)]
    have ih2 : splitSlashChars (rest.append ('/' :: r)) =
        rest :: splitSlashChars r := ih h.2
    rw [ih2]

theorem data_full_form (i t : String) :
    (i ++ "/" ++ t).data = i.data ++ '/' :: t.data := by
  have h : ("/" : String).data = ['/'] := rfl
  rw [String.data_append, String.data_append, h, List.append_assoc]
  rfl

theorem full_form_ne_empty (i t : String) : i ++ "/" ++ t ≠ "" := by
  intro h
  have h2 := congrArg String.data h
  rw [data_full_form] at h2
  have h3 : ("" : String).data = [] := rfl
  rw [h3] at h2
  simp at h2

theorem splitSlash_full_form (i t : String) (hi : '/' ∉ i.data)
    (ht : '/' ∉ t.data) : splitSlash (i ++ "/" ++ t) = [i, t] := by
  unfold splitSlash
  rw [data_full_form, splitSlashChars_append _ _ hi,
    splitSlashChars_no_slash _ ht]
  rfl

theorem compute_actid_full_form (i t : String) (actidD txD ftxD : Option String)
    (gens : IdGens) (hi0 : i ≠ "") (ht0 : t ≠ "")
    (hi : '/' ∉ i.data) (ht : '/' ∉ t.data) :
    compute_actid (some (i ++ "/" ++ t)) actidD txD ftxD gens =
      i ++ "/" ++ t := by
  have hbase : jsOrStrD (jsOrStr (some (i ++ "/" ++ t)) actidD) gens.genBase =
      i ++ "/" ++ t := by
    simp [jsOrStr, jsOrStrD, full_form_ne_empty i t]
  simp only [compute_actid, hbase, splitSlash_full_form i t hi ht]
  simp [jsOrStrD, hi0, ht0]

theorem cacheGet_eq_none_of_not_mem (c : List (String × ResultTuple))
    (s : String) (h : s ∉ c.map Prod.fst) : cacheGet c s = none := by
  induction c with
  | nil => rfl
  | cons kv rest ih =>
    simp only [List.map_cons, List.mem_cons] at h
    push_neg at h
    have hne : kv.1 ≠ s := fun e => h.1 e.symm
    simp [cacheGet, hne, ih h.2]

theorem sub_log_foldl (fs : List SubOutcome) (acc : List String) :
    fs.foldl (fun logs r =>
      match subError r with
      | some e => logs ++ [e]
      | none => logs) acc = acc ++ fs.filterMap subError := by
  induction fs generalizing acc with
  | nil => simp
  | cons f rest ih =>
    cases hf : subError f <;> simp [List.filterMap_cons, hf, ih]

/-! ## Claim theorems -/

/-- C1: the spec says `add` fails with `add_empty_pattern` when the
cleaned pattern has no keys, and the code's own guard
`if (!_.keys(pattern)) throw ...` (src/seneca.js lines 696-698) clearly
intends that.  But `_.keys` returns an array and a JavaScript array is
always truthy, so the guard never fires: `add` with an empty cleaned
pattern registers a catch-all and returns the instance, and no call to
`add` ever throws `add_empty_pattern`. -/
theorem add_empty_pattern_unreachable :
    api_add_clean_check [] = AddResult.registered [] [] ∧
    ∀ raw : Obj, (api_add_clean_check raw).isThrew = false := by
  refine ⟨rfl, fun raw => ?_⟩
  simp [api_add_clean_check, keysArrayTruthy, jsTruthy, AddResult.isThrew]

/-- C2 counterexample: with `strict.fixedargs = false` the claim says the
caller-supplied value wins, but `api_act` (line 839) merges
`_.extend(args, self.fixedargs)` unconditionally, so the instance's
fixed value `2` overrides the caller's `1`. -/
theorem act_normalize_ignores_strict_fixedargs :
    getKey (api_act_normalize ⟨true, false, false, true, 11⟩
      [("a", JVal.vnum 1)] [("a", JVal.vnum 2)]) "a" = some (JVal.vnum 2) ∧
    ¬ getKey (api_act_normalize ⟨true, false, false, true, 11⟩
      [("a", JVal.vnum 1)] [("a", JVal.vnum 2)]) "a" = some (JVal.vnum 1) := by
  constructor
  · rfl
  · intro h
    have h2 : some (JVal.vnum 2) = some (JVal.vnum 1) := h
    simp at h2

/-- C2 amended: during `act` message normalization the instance
`fixedargs` always override caller-supplied attributes, for every value
of `strict.fixedargs`; the `strict.fixedargs` switch instead controls the
merge direction when a delegate's fixedargs are composed in
`api_delegate`: when true the existing instance's fixed values win over
the newly supplied ones, when false the newly supplied values win. -/
theorem fixedargs_merge_amended :
    (∀ (so : StrictOptions) (args fixed : Obj) (k : String) (v : JVal),
      (objKeys fixed).Nodup → getKey fixed k = some v →
      getKey (api_act_normalize so args fixed) k = some v) ∧
    (∀ (selfFixed newFixed : Obj) (k : String) (v : JVal),
      (objKeys selfFixed).Nodup → getKey selfFixed k = some v →
      getKey (api_delegate_fixedargs true selfFixed newFixed) k = some v) ∧
    (∀ (selfFixed newFixed : Obj) (k : String) (v : JVal),
      (objKeys newFixed).Nodup → getKey newFixed k = some v →
      getKey (api_delegate_fixedargs false selfFixed newFixed) k = some v) := by
  refine ⟨fun so args fixed k v hnd hv => ?_,
    fun selfFixed newFixed k v hnd hv => ?_,
    fun selfFixed newFixed k v hnd hv => ?_⟩
  · exact getKey_extend_of_mem _ _ _ _ hnd hv
  · simp only [api_delegate_fixedargs, if_pos rfl]
    exact getKey_extend_of_mem _ _ _ _ hnd hv
  · simp only [api_delegate_fixedargs, if_neg Bool.false_ne_true]
    exact getKey_extend_of_mem _ _ _ _ hnd hv

/-- C3 counterexample: two dispatches with the same `id$ = "X"` (an id
without the `/tx` part).  Contrary to the claim, the second dispatch
invokes the handler again, the delivered results differ (`2` vs `1`),
the `act.cache` counter stays at 0, and the first call's tuple was
stored under the composed key `"X/t1"`, not under `"X"`. -/
theorem actcache_bare_id_not_replayed :
    bareIdRun2.2.handlerInvoked = true ∧
    bareIdRun1.2.delivered.result = JVal.vnum 1 ∧
    bareIdRun2.2.delivered.result = JVal.vnum 2 ∧
    bareIdRun2.1.cacheHits = 0 ∧
    bareIdRun1.1.cache = [("X/t1", ⟨none, JVal.vnum 1⟩)] :=
  ⟨rfl, rfl, rfl, rfl, rfl⟩

/-- C3 amended: the at-most-once replay holds exactly for an `id$` of
the full `<id>/<tx>` form.  For every such id$ — `i ++ "/" ++ t` with
`i` and `t` non-empty and slash-free, so that the supplied value equals
the composed action-id — and for every `actid$`, caller `tx$`, fixed
`tx$`, generator outputs and pair of handler tuples (errors included):
the first dispatch on an empty cache runs its handler and stores its
tuple under that very key unconditionally; the second dispatch with the
same `id$` does not invoke the handler, delivers the first call's exact
tuple on the next tick, and increments the `act.cache` counter.  The
full form is essential: the near-miss ids `"X/"`, `"/T"` and `"X/T/Z"`
recompose to a different action-id, so their second dispatch invokes
the handler again. -/
theorem actcache_full_key_idempotent :
    (∀ (i t : String) (aD aD2 tD fD tD2 fD2 : Option String)
      (g1 g2 : IdGens) (t1 t2 : ResultTuple),
      i ≠ "" → t ≠ "" → '/' ∉ i.data → '/' ∉ t.data →
      (act_once true ⟨[], 0⟩ (some (i ++ "/" ++ t)) aD tD fD g1 t1).2 =
        DispatchOutcome.executed t1 ∧
      (act_once true ⟨[], 0⟩ (some (i ++ "/" ++ t)) aD tD fD g1 t1).1.cache =
        [(i ++ "/" ++ t, t1)] ∧
      (act_once true
        (act_once true ⟨[], 0⟩ (some (i ++ "/" ++ t)) aD tD fD g1 t1).1
        (some (i ++ "/" ++ t)) aD2 tD2 fD2 g2 t2).2 =
        DispatchOutcome.replayedNextTick t1 ∧
      (act_once true
        (act_once true ⟨[], 0⟩ (some (i ++ "/" ++ t)) aD tD fD g1 t1).1
        (some (i ++ "/" ++ t)) aD2 tD2 fD2 g2 t2).2.handlerInvoked = false ∧
      (act_once true
        (act_once true ⟨[], 0⟩ (some (i ++ "/" ++ t)) aD tD fD g1 t1).1
        (some (i ++ "/" ++ t)) aD2 tD2 fD2 g2 t2).1.cacheHits = 1) ∧
    (act_once true
      (act_once true ⟨[], 0⟩ (some "X/") none none none ⟨"g1", "t1", "g3"⟩
        ⟨none, JVal.vnull⟩).1
      (some "X/") none none none ⟨"g2", "t2", "g4"⟩
      ⟨none, JVal.vnull⟩).2.handlerInvoked = true ∧
    (act_once true
      (act_once true ⟨[], 0⟩ (some "/T") none none none ⟨"g1", "t1", "g3"⟩
        ⟨none, JVal.vnull⟩).1
      (some "/T") none none none ⟨"g2", "t2", "g4"⟩
      ⟨none, JVal.vnull⟩).2.handlerInvoked = true ∧
    (act_once true
      (act_once true ⟨[], 0⟩ (some "X/T/Z") none none none ⟨"g1", "t1", "g3"⟩
        ⟨none, JVal.vnull⟩).1
      (some "X/T/Z") none none none ⟨"g2", "t2", "g4"⟩
      ⟨none, JVal.vnull⟩).2.handlerInvoked = true := by
  refine ⟨fun i t aD aD2 tD fD tD2 fD2 g1 g2 t1 t2 hi0 ht0 hi ht => ?_,
    rfl, rfl, rfl⟩
  have hne := full_form_ne_empty i t
  have hkey : ∀ a : Option String,
      cache_lookup_key (some (i ++ "/" ++ t)) a = some (i ++ "/" ++ t) := by
    intro a
    simp [cache_lookup_key, jsOrStr, hne]
  have hid := compute_actid_full_form i t aD tD fD g1 hi0 ht0 hi ht
  have hr1 : act_once true ⟨[], 0⟩ (some (i ++ "/" ++ t)) aD tD fD g1 t1 =
      (⟨[(i ++ "/" ++ t, t1)], 0⟩, DispatchOutcome.executed t1) := by
    simp [act_once, hkey aD, cacheGet, cacheSet, hid]
  have hr2 : act_once true
      (act_once true ⟨[], 0⟩ (some (i ++ "/" ++ t)) aD tD fD g1 t1).1
      (some (i ++ "/" ++ t)) aD2 tD2 fD2 g2 t2 =
      (⟨[(i ++ "/" ++ t, t1)], 1⟩, DispatchOutcome.replayedNextTick t1) := by
    rw [hr1]
    simp [act_once, hkey aD2, cacheGet]
  exact ⟨by rw [hr1], by rw [hr1], by rw [hr2], by rw [hr2]; rfl,
    by rw [hr2]⟩

/-- Witness for the amended cache-replay theorem: the full-form id$
`"X" ++ "/" ++ "T"` with a present caller `tx$` and an error tuple from
the first handler; the second dispatch replays that error tuple and
bumps the cache counter. -/
theorem actcache_full_key_idempotent_witness :
    (act_once true ⟨[], 0⟩ (some ("X" ++ "/" ++ "T")) (some "A1")
      (some "CT") (some "FT") ⟨"g1", "t1", "g3"⟩
      ⟨some "boom", JVal.vnull⟩).2 =
      DispatchOutcome.executed ⟨some "boom", JVal.vnull⟩ ∧
    (act_once true
      (act_once true ⟨[], 0⟩ (some ("X" ++ "/" ++ "T")) (some "A1")
        (some "CT") (some "FT") ⟨"g1", "t1", "g3"⟩
        ⟨some "boom", JVal.vnull⟩).1
      (some ("X" ++ "/" ++ "T")) (some "A2") (some "CT2") (some "FT2")
      ⟨"g2", "t2", "g4"⟩ ⟨none, JVal.vnum 7⟩).2 =
      DispatchOutcome.replayedNextTick ⟨some "boom", JVal.vnull⟩ ∧
    (act_once true
      (act_once true ⟨[], 0⟩ (some ("X" ++ "/" ++ "T")) (some "A1")
        (some "CT") (some "FT") ⟨"g1", "t1", "g3"⟩
        ⟨some "boom", JVal.vnull⟩).1
      (some ("X" ++ "/" ++ "T")) (some "A2") (some "CT2") (some "FT2")
      ⟨"g2", "t2", "g4"⟩ ⟨none, JVal.vnum 7⟩).1.cacheHits = 1 := by
  have h := actcache_full_key_idempotent.1 "X" "T" (some "A1") (some "A2")
    (some "CT") (some "FT") (some "CT2") (some "FT2")
    ⟨"g1", "t1", "g3"⟩ ⟨"g2", "t2", "g4"⟩
    ⟨some "boom", JVal.vnull⟩ ⟨none, JVal.vnum 7⟩
    (by decide) (by decide) (by decide) (by decide)
  exact ⟨h.1, h.2.2.1, h.2.2.2.2⟩

/-- C4: the key stored by `act_done` is the composed `<id>/<tx>` and
always contains a slash; the replay lookup uses the caller-supplied
`id$`/`actid$` verbatim, so a supplied id without a slash never hits a
cache whose keys are all composed ids (the handler is invoked again);
and a replay occurs only when the supplied key equals a stored key
exactly. -/
theorem actcache_key_verbatim_vs_composed :
    (∀ (idD actidD txD ftxD : Option String) (gens : IdGens),
      '/' ∈ (compute_actid idD actidD txD ftxD gens).data) ∧
    (∀ (st : ActState) (idD actidD txD ftxD : Option String) (gens : IdGens)
      (t : ResultTuple) (s : String),
      cache_lookup_key idD actidD = some s → '/' ∉ s.data →
      (∀ k ∈ st.cache.map Prod.fst, '/' ∈ k.data) →
      (act_once true st idD actidD txD ftxD gens t).2.handlerInvoked = true) ∧
    (∀ (st : ActState) (idD actidD txD ftxD : Option String) (gens : IdGens)
      (t t' : ResultTuple),
      (act_once true st idD actidD txD ftxD gens t).2 =
        DispatchOutcome.replayedNextTick t' →
      ∃ s, cache_lookup_key idD actidD = some s ∧
        cacheGet st.cache s = some t') := by
  refine ⟨fun idD actidD txD ftxD gens => ?_,
    fun st idD actidD txD ftxD gens t s hkey hs hkeys => ?_,
    fun st idD actidD txD ftxD gens t t' h => ?_⟩
  · show '/' ∈ (_ ++ "/" ++ _).data
    simp [String.data_append]
  · have hnone : cacheGet st.cache s = none :=
      cacheGet_eq_none_of_not_mem _ _ (fun hmem => hs (hkeys s hmem))
    simp [act_once, hkey, hnone, DispatchOutcome.handlerInvoked]
  · rw [act_once] at h
    cases hk : cache_lookup_key idD actidD with
    | none => rw [hk] at h; simp at h
    | some s =>
      rw [hk] at h
      simp only [if_pos rfl, Option.some_bind] at h
      cases hg : cacheGet st.cache s with
      | none => rw [hg] at h; simp at h
      | some tup =>
        rw [hg] at h
        have h2 : DispatchOutcome.replayedNextTick tup =
            DispatchOutcome.replayedNextTick t' := h
        injection h2 with h3
        exact ⟨s, rfl, by rw [hg, h3]⟩

/-- C5 counterexample: with `strict.find` off and a falsy but present
`default$` (here `default$ = 0`), the claim demands `act_default_bad`;
the normalization at src/seneca.js line 1001 replaces every falsy
`default$` — not only a missing one — by the empty object, so the call
succeeds with `{}`. -/
theorem no_match_falsy_default_nonstrict :
    dispatch_no_match false false (some (JVal.vnum 0)) =
      NoMatchOutcome.deliver (JVal.vobj []) ∧
    ¬ dispatch_no_match false false (some (JVal.vnum 0)) =
      NoMatchOutcome.errDefaultBad := by
  refine ⟨rfl, fun h => ?_⟩
  have h2 : NoMatchOutcome.deliver (JVal.vobj []) =
      NoMatchOutcome.errDefaultBad := h
  injection h2

/-- C5 amended: on a dispatch with no matching pattern and no `fatal$`,
a plain-object or array `default$` is delivered as the result; with
`strict.find` on, a present non-object/array `default$` yields
`act_default_bad` and an absent one yields `act_not_found`; with
`strict.find` off, a truthy non-object/array `default$` still yields
`act_default_bad`, but any falsy `default$` — absent or present — is
replaced by the empty object and the call succeeds with `{}`. -/
theorem no_match_default_amended :
    (∀ (sf : Bool) (v : JVal), (isPlainObject v || isArray v) = true →
      dispatch_no_match sf false (some v) = NoMatchOutcome.deliver v) ∧
    (∀ v : JVal, (isPlainObject v || isArray v) = false →
      dispatch_no_match true false (some v) = NoMatchOutcome.errDefaultBad) ∧
    (dispatch_no_match true false none = NoMatchOutcome.errNotFound) ∧
    (∀ v : JVal, (isPlainObject v || isArray v) = false → jsTruthy v = true →
      dispatch_no_match false false (some v) = NoMatchOutcome.errDefaultBad) ∧
    (∀ v : JVal, jsTruthy v = false →
      dispatch_no_match false false (some v) =
        NoMatchOutcome.deliver (JVal.vobj [])) ∧
    (dispatch_no_match false false none =
      NoMatchOutcome.deliver (JVal.vobj [])) := by
  refine ⟨fun sf v hv => ?_, fun v hv => ?_, rfl, fun v hv htr => ?_,
    fun v hv => ?_, rfl⟩
  · cases v <;> simp_all [dispatch_no_match, norm_default, no_match_branch,
      jsTruthyOpt, jsTruthy, isPlainObject, isArray]
  · cases v with
    | vnull => simp [dispatch_no_match, norm_default, no_match_branch,
        jsTruthyOpt, jsTruthy, isPlainObject, isArray]
    | vbool b => cases b <;> simp [dispatch_no_match, norm_default,
        no_match_branch, jsTruthyOpt, jsTruthy, isPlainObject, isArray]
    | vnum n => by_cases hn : n = 0 <;> simp [dispatch_no_match,
        norm_default, no_match_branch, jsTruthyOpt, jsTruthy,
        isPlainObject, isArray, hn]
    | vstr s => by_cases hs : s = "" <;> simp [dispatch_no_match,
        norm_default, no_match_branch, jsTruthyOpt, jsTruthy,
        isPlainObject, isArray, hs]
    | vobj fields => simp_all [isPlainObject, isArray]
    | varr elems => simp_all [isPlainObject, isArray]
  · cases v <;> simp_all [dispatch_no_match, norm_default, no_match_branch,
      jsTruthyOpt, jsTruthy, isPlainObject, isArray]
  · cases v <;> simp_all [dispatch_no_match, norm_default, no_match_branch,
      jsTruthyOpt, jsTruthy, isPlainObject, isArray]

/-- C6: with metadata resolved and a `history$` array present, the
dispatcher counts the entries whose `action` equals the metadata id and
fails with `act_loop` exactly when the count strictly exceeds
`strict.maxloop`; with the count at most `maxloop` (or no history) the
check passes and the dispatch proceeds to invoke the handler; the
built-in default of `strict.maxloop` is 11. -/
theorem loop_check_maxloop :
    (∀ (maxloop : Nat) (h : List HistEntry) (id : String),
      (loop_check maxloop (some h) id = some "act_loop" ↔
        maxloop < h.countP (fun e => e.action = id))) ∧
    (∀ (maxloop : Nat) (h : List HistEntry) (id : String),
      h.countP (fun e => e.action = id) ≤ maxloop →
      loop_check maxloop (some h) id = none) ∧
    (∀ (maxloop : Nat) (id : String), loop_check maxloop none id = none) ∧
    defaults_strict.maxloop = 11 := by
  have key : ∀ (maxloop : Nat) (h : List HistEntry) (id : String),
      (loop_check maxloop (some h) id = some "act_loop" ↔
        maxloop < h.countP (fun e => e.action = id)) := by
    intro maxloop h id
    cases h with
    | nil => simp [loop_check]
    | cons e rest =>
      by_cases hc : maxloop < (e :: rest).countP (fun e => e.action = id)
      · simp [loop_check, hc]
      · simp [loop_check, hc]
  refine ⟨key, fun maxloop h id hle => ?_, fun maxloop id => rfl, rfl⟩
  cases hres : loop_check maxloop (some h) id with
  | none => rfl
  | some s =>
    exfalso
    have hs : s = "act_loop" := by
      cases h with
      | nil => simp [loop_check] at hres
      | cons e rest =>
        by_cases hc : maxloop < (e :: rest).countP (fun e => e.action = id)
        · simp [loop_check, hc] at hres
          exact hres.symm
        · simp [loop_check, hc] at hres
    rw [hs] at hres
    exact Nat.not_lt.mpr hle ((key maxloop h id).mp hres)

/-- C7 counterexample: the found prior `handlePrior` survives both
exclusions (its pattern `a:1` is not the catch-all, and `strict.add` is
off), yet because it exposes a `handle` function the new metadata does
not record `priormeta` (and no new route is installed); only `priorpath`
is recorded — contradicting the claim's final clause. -/
theorem add_handle_prior_not_recorded :
    select_prior false false (some handlePrior) "a:1" = some handlePrior ∧
    (apply_prior_policy false false (some handlePrior) "a:1").priormeta =
      none ∧
    (apply_prior_policy false false (some handlePrior) "a:1").priorpath =
      "pH;" ∧
    (apply_prior_policy false false (some handlePrior) "a:1").addroute =
      false := by
  refine ⟨?_, ?_, ?_, ?_⟩ <;> rfl

/-- C7 amended: on `add`, a prior that is the empty catch-all is not
taken when `internal.catchall` is off; with `strict.add` on, a prior
whose canonical pattern differs is not taken; otherwise — EXCEPT when
the prior exposes a `handle` delegation function, in which case the
registration is delegated (`priormeta` not recorded, no new route, but
`priorpath` still set) — the new metadata records `priormeta := prior`
and `priorpath := prior.id + ";" + prior.priorpath`, and the empty
string when there is no prior. -/
theorem add_override_policy_amended :
    (∀ (ic sa : Bool) (pat : String),
      apply_prior_policy ic sa none pat =
        PriorRecord.mk none "" true) ∧
    (∀ (sa : Bool) (p : ActMeta) (pat : String), p.pattern = "" →
      apply_prior_policy false sa (some p) pat =
        PriorRecord.mk none "" true) ∧
    (∀ (ic : Bool) (p : ActMeta) (pat : String),
      (ic = true ∨ p.pattern ≠ "") → p.pattern ≠ pat →
      apply_prior_policy ic true (some p) pat =
        PriorRecord.mk none "" true) ∧
    (∀ (ic sa : Bool) (p : ActMeta) (pat : String),
      (ic = true ∨ p.pattern ≠ "") → (sa = false ∨ p.pattern = pat) →
      p.hasHandle = false →
      apply_prior_policy ic sa (some p) pat =
        PriorRecord.mk (some p) (p.id ++ ";" ++ p.priorpath) true) ∧
    (∀ (ic sa : Bool) (p : ActMeta) (pat : String),
      (ic = true ∨ p.pattern ≠ "") → (sa = false ∨ p.pattern = pat) →
      p.hasHandle = true →
      apply_prior_policy ic sa (some p) pat =
        PriorRecord.mk none (p.id ++ ";" ++ p.priorpath) false) := by
  have hsel : ∀ (ic sa : Bool) (p : ActMeta) (pat : String),
      (ic = true ∨ p.pattern ≠ "") → (sa = false ∨ p.pattern = pat) →
      select_prior ic sa (some p) pat = some p := by
    intro ic sa p pat h1 h2
    have hg1 : ¬(ic = false ∧ p.pattern = "") := by
      rcases h1 with h1 | h1
      · subst h1; rintro ⟨ha, _⟩; exact Bool.noConfusion ha
      · rintro ⟨_, hb⟩; exact h1 hb
    have hg2 : ¬(sa = true ∧ p.pattern ≠ pat) := by
      rcases h2 with h2 | h2
      · subst h2; rintro ⟨ha, _⟩; exact Bool.noConfusion ha
      · rintro ⟨_, hb⟩; exact hb h2
    simp [select_prior, hg1, hg2]
  refine ⟨fun ic sa pat => rfl, fun sa p pat hp => ?_,
    fun ic p pat h1 hne => ?_, fun ic sa p pat h1 h2 hh => ?_,
    fun ic sa p pat h1 h2 hh => ?_⟩
  · simp [apply_prior_policy, select_prior, record_prior, hp]
  · rcases h1 with h1 | h1
    · subst h1
      simp [apply_prior_policy, select_prior, record_prior, hne]
    · simp [apply_prior_policy, select_prior, record_prior, hne, h1]
  · rw [apply_prior_policy, hsel ic sa p pat h1 h2]
    simp [record_prior, hh]
  · rw [apply_prior_policy, hsel ic sa p pat h1 h2]
    simp [record_prior, hh]

/-- Getting a key other than `tx$` and `default$` from a prepared prior
message reads through to the stripped clone of the arguments. -/
theorem getKey_prepare_prior_args (args : Obj) (tx : String) (d : Option JVal)
    (k : String) (h1 : ("tx$" : String) ≠ k) (h2 : ("default$" : String) ≠ k) :
    getKey (prepare_prior_args args tx d) k =
      getKey (delKeys args priorStrippedKeys) k := by
  unfold prepare_prior_args
  rw [getKey_setKey_other _ _ _ _ h1]
  cases d with
  | none => rfl
  | some v =>
    by_cases hv : jsTruthy v
    · simp only [hv, if_true]
      rw [getKey_setKey_other _ _ _ _ h2]
    · simp [hv]

/-- C8: a prior call re-enters the dispatcher bound directly to the
overridden metadata — a metadata already bound to the dispatch bypasses
pattern resolution — with a context whose chain is the caller's chain
extended by the calling action's id, `entry` set to false and `depth`
incremented; the prepared prior message has the reserved attributes
`id$`, `gate$`, `actid$`, `meta$` and `transport$` removed and `tx$`
fixed to the calling transaction. -/
theorem prior_call_semantics :
    (∀ (ctxt : PriorCtxt) (aid : String),
      (make_sub_prior_ctxt ctxt aid).chain = ctxt.chain ++ [aid] ∧
      (make_sub_prior_ctxt ctxt aid).entry = false ∧
      (make_sub_prior_ctxt ctxt aid).depth = ctxt.depth + 1) ∧
    (∀ (args : Obj) (tx : String) (d : Option JVal) (k : String),
      k ∈ priorStrippedKeys →
      getKey (prepare_prior_args args tx d) k = none) ∧
    (∀ (args : Obj) (tx : String) (d : Option JVal),
      getKey (prepare_prior_args args tx d) "tx$" = some (JVal.vstr tx)) ∧
    (∀ (m : ActMeta) (fr : Option ActMeta),
      resolve_actmeta (some m) fr = some m) := by
  refine ⟨fun ctxt aid => ⟨rfl, rfl, rfl⟩, fun args tx d k hk => ?_,
    fun args tx d => getKey_setKey_self _ _ _, fun m fr => rfl⟩
  fin_cases hk <;>
    rw [getKey_prepare_prior_args _ _ _ _ (by decide) (by decide),
      getKey_delKeys] <;> simp [priorStrippedKeys]

/-- C9: when subscriber functions are registered for the dispatched
message, they are invoked exactly when the dispatch's `meta$.entry` is
strictly `true` (so inner prior calls, which clear `entry`, never
re-notify); a subscriber that throws is caught — its error is logged and
the fan-out returns normally instead of propagating, as the concrete
throwing subscriber shows. -/
theorem sub_entry_flag_isolation :
    (∀ (e : Option JVal) (fs : List SubOutcome),
      ((handle_sub e (some fs)).1 = true ↔ is_strict_true e = true)) ∧
    (∀ (e : Option JVal) (fs : List SubOutcome), is_strict_true e = true →
      handle_sub e (some fs) = (true, fs.filterMap subError)) ∧
    (∀ (e : Option JVal) (fs : List SubOutcome), is_strict_true e = false →
      handle_sub e (some fs) = (false, [])) ∧
    (handle_sub (some (JVal.vbool true))
      (some [Except.error "boom", Except.ok ()]) = (true, ["boom"])) := by
  refine ⟨fun e fs => ?_, fun e fs he => ?_, fun e fs he => ?_, rfl⟩
  · by_cases he : is_strict_true e <;> simp [handle_sub, he]
  · simp [handle_sub, he, sub_log_foldl]
  · simp [handle_sub, he]

/-- C10: on an action error without `fatal$`, an installed errhandler
observes the error and the user continuation runs exactly when the
errhandler returned a falsy value (a truthy return consumes the error);
with no errhandler the continuation always runs; when the message
carries `fatal$`, the instance dies and the continuation never runs,
irrespective of the errhandler. -/
theorem errhandler_flow :
    (∀ r : Bool, act_done_error false (some r) =
      ErrFlow.mk false true (!r)) ∧
    (act_done_error false none = ErrFlow.mk false false true) ∧
    (∀ eh : Option Bool, (act_done_error true eh).died = true ∧
      (act_done_error true eh).continuationCalled = false) := by
  refine ⟨fun r => rfl, rfl, fun eh => ?_⟩
  cases eh <;> exact ⟨rfl, rfl⟩

end Seneca
